import Mathlib

/-!
Verification of the fine-tuning job orchestration service of the
`ollama_dashboard` repository (`console/services/finetuning.py` and the
`FineTuningJob` model of `console/models.py`).

The Python code is shallowly embedded: every function under scrutiny is
translated into an executable Lean definition over explicit state, and
Python exceptions are modelled with `Except`.  Machine-level aspects
(actual OS processes, the database engine, wall-clock time) are abstracted
into explicit environment records whose fields stand for the outcomes of
the corresponding effectful calls; everything the control flow of the
source decides on is kept.
-/

/-- Decidable equality for `Except` results (not provided by the core
library), needed to evaluate the embedded fallible functions on concrete
inputs. -/
def exceptDecEq [DecidableEq ε] [DecidableEq α] : DecidableEq (Except ε α)
  | .error e, .error f =>
    if h : e = f then .isTrue (by rw [h])
    else .isFalse (fun hh => by cases hh; exact h rfl)
  | .error _, .ok _ => .isFalse (fun hh => by cases hh)
  | .ok _, .error _ => .isFalse (fun hh => by cases hh)
  | .ok a, .ok b =>
    if h : a = b then .isTrue (by rw [h])
    else .isFalse (fun hh => by cases hh; exact h rfl)

instance [DecidableEq ε] [DecidableEq α] : DecidableEq (Except ε α) := exceptDecEq

/-- Python exceptions that can escape the embedded functions.
`validate_dataset_format` catches only `OSError`; every other exception
propagates to the caller. -/
inductive PyErr where
  | unicodeDecodeError
  | attributeError
  | typeError
  | valueError
  deriving DecidableEq

/-- A parsed JSON value, the result of `json.loads` on one line.
Numbers are modelled as rationals; object fields are the items of the
resulting Python dict. -/
inductive Json where
  | null
  | bool (b : Bool)
  | num (q : ℚ)
  | str (s : String)
  | arr (xs : List Json)
  | obj (fields : List (String × Json))

/-- One physical line of a `.jsonl` file, abstracted to the outcome of
`line.strip()` and `json.loads(line)`:  blank (skipped), a JSON decode
failure (carrying the exception text used in the error message), or a
successfully parsed value. -/
inductive JsonlLine where
  | blank
  | invalid (excMsg : String)
  | value (j : Json)

/-- `needle.isPrefixOf hay` at every position: Python `needle in hay` for
strings (substring containment). -/
def strContainsSub (needle : List Char) : List Char → Bool
  | [] => needle.isEmpty
  | c :: rest => needle.isPrefixOf (c :: rest) || strContainsSub needle rest

/-- Python `==` between a string and an arbitrary JSON value (used by
`"role" in someList`): true only for an equal string. -/
def jsonIsStrEq (s : String) : Json → Bool
  | .str t => s == t
  | _ => false

/-- Python `s in j` for a string `s` and a decoded JSON value `j`:
key containment for dicts, substring for strings, membership for lists,
`TypeError` for every non-iterable value (numbers, booleans, `None`). -/
def pyIn (s : String) (j : Json) : Except PyErr Bool :=
  match j with
  | .obj fields => .ok (fields.any fun p => p.1 == s)
  | .str t => .ok (strContainsSub s.data t.data)
  | .arr xs => .ok (xs.any (jsonIsStrEq s))
  | _ => .error .typeError

/-- `"role" not in msg or "content" not in msg` with Python's left-to-right
short-circuit evaluation (the second membership test is not evaluated when
the first already fails). -/
def messageMissing (msg : Json) : Except PyErr Bool := do
  let hasRole ← pyIn "role" msg
  if !hasRole then
    pure true
  else do
    let hasContent ← pyIn "content" msg
    pure !hasContent

/-- The inner loop of `_validate_jsonl` over `enumerate(messages)`:
collects one error per message lacking `role` or `content`, propagating a
`TypeError` raised by the membership test. -/
def checkMessages (i : Nat) : Nat → List Json → Except PyErr (List String)
  | _, [] => .ok []
  | j, msg :: rest => do
    let bad ← messageMissing msg
    let tail ← checkMessages i (j + 1) rest
    if bad then
      .ok ((s!"Line {i}, message {j}: missing \x27role\x27 or \x27content\x27") :: tail)
    else
      .ok tail

/-- Per-line validation of `_validate_jsonl` for one parsed value `v`:
`data.get("messages")` raises `AttributeError` unless the value is a dict;
a dict value of JSON `null` (or an absent key) is reported as a missing
`messages` field; a non-list value is reported as such; a list has each
element checked. -/
def jsonlValueErrors (i : Nat) (v : Json) : Except PyErr (List String) :=
  match v with
  | .obj fields =>
    match fields.lookup "messages" with
    | none => .ok [s!"Line {i}: Missing \x27messages\x27 field"]
    | some .null => .ok [s!"Line {i}: Missing \x27messages\x27 field"]
    | some (.arr msgs) => checkMessages i 0 msgs
    | some _ => .ok [s!"Line {i}: \x27messages\x27 must be a list"]
  | _ => .error .attributeError

/-- `_validate_jsonl`, recursing over the enumerated lines (1-based, like
`enumerate(fh, 1)`).  Blank lines are skipped without counting; every other
line counts toward the size; errors are accumulated in line order and an
exception raised on a line aborts the scan. -/
def validateJsonlFrom : Nat → List JsonlLine → Except PyErr (Nat × List String)
  | _, [] => .ok (0, [])
  | i, .blank :: rest => validateJsonlFrom (i + 1) rest
  | i, .invalid excMsg :: rest => do
    let (n, errs) ← validateJsonlFrom (i + 1) rest
    .ok (n + 1, (s!"Line {i}: Invalid JSON – " ++ excMsg) :: errs)
  | i, .value v :: rest => do
    let cur ← jsonlValueErrors i v
    let (n, errs) ← validateJsonlFrom (i + 1) rest
    .ok (n + 1, cur ++ errs)

/-- One row produced by `csv.DictReader`: an association from column name
to its value, where `none` models a missing value (`None`). -/
abbrev CsvRow := List (String × Option String)

/-- Python `row.get(col)` followed by falsiness: true when the value is
absent, `None`, or the empty string. -/
def rowValueFalsy (row : CsvRow) (col : String) : Bool :=
  match (row.lookup col).join with
  | none => true
  | some s => s == ""

/-- The row loop of `_validate_csv` over `enumerate(reader, 1)`: every row
counts; a row with an empty/missing `role` or `content` appends one
row-numbered error. -/
def csvRowErrors : Nat → List CsvRow → Nat × List String
  | _, [] => (0, [])
  | i, row :: rest =>
    let (n, errs) := csvRowErrors (i + 1) rest
    let bad := rowValueFalsy row "role" || rowValueFalsy row "content"
    (n + 1, (if bad then [s!"Row {i}: \x27role\x27 or \x27content\x27 is empty"] else []) ++ errs)

/-- `_validate_csv`.  `reader.fieldnames` is `None` for an empty file
(modelled as `none`), defaulted to the empty list; `required - set(fieldnames)`
is computed in sorted order (`"content" < "role"`), and a non-empty
difference stops validation with a single error and count zero. -/
def validateCsv (header : Option (List String)) (rows : List CsvRow) : Nat × List String :=
  let fieldnames := header.getD []
  let missing := ["content", "role"].filter fun c => fieldnames.all fun f => f ≠ c
  if missing.isEmpty then
    csvRowErrors 1 rows
  else
    (0, ["CSV is missing required columns: " ++ String.intercalate ", " missing])

/-- Abstraction of one on-disk dataset file.  The raw text is kept only
through its two parsed views (the line/JSON view used by the `.jsonl`
branch and the header/rows view used by the `.csv` branch); `fsExists`
models `os.path.exists`, `ioError` an `OSError` raised while opening or
reading (carrying its text), and `decodable` whether reading the content
raises `UnicodeDecodeError`. -/
structure DatasetFile where
  path : String
  fsExists : Bool
  ioError : Option String
  decodable : Bool
  jsonlView : List JsonlLine
  csvHeader : Option (List String)
  csvRows : List CsvRow

/-- Python `str.endswith`. -/
def pyEndswith (s suffix : String) : Bool :=
  List.isPrefixOf suffix.data.reverse s.data.reverse

/-- `validate_dataset_format`.  Only `OSError` is caught (yielding a
structured error); `UnicodeDecodeError` and the exceptions of
`_validate_jsonl` propagate to the caller as `.error`. -/
def validate_dataset_format (f : DatasetFile) : Except PyErr (Nat × List String) :=
  if !f.fsExists then
    let p := f.path
    .ok (0, [s!"Dataset file not found: {p}"])
  else
    match f.ioError with
    | some m => .ok (0, ["Error reading dataset: " ++ m])
    | none =>
      if pyEndswith f.path ".jsonl" then
        if f.decodable then validateJsonlFrom 1 f.jsonlView
        else .error .unicodeDecodeError
      else if pyEndswith f.path ".csv" then
        if f.decodable then .ok (validateCsv f.csvHeader f.csvRows)
        else .error .unicodeDecodeError
      else
        .ok (0, ["Unsupported file format. Use .jsonl or .csv"])

/-- The `status` column of `FineTuningJob` (`console/models.py`). -/
inductive Status where
  | pending
  | running
  | completed
  | failed
  | cancelled
  deriving DecidableEq

/-- The `FineTuningJob` record (`console/models.py`).  Timestamps are
rationals (seconds); `dataset_file` is the stored path; `loss` is the
nullable float column. -/
structure Job where
  id : Nat
  name : String
  base_model : String
  fine_tuned_model : String
  epochs : Int
  learning_rate : ℚ
  batch_size : Int
  dataset_file : String
  dataset_size : Int
  status : Status
  current_epoch : Int
  current_step : Int
  total_steps : Int
  loss : Option ℚ
  created_at : ℚ
  started_at : Option ℚ
  completed_at : Option ℚ
  error_message : String
  deriving DecidableEq

/-- `FineTuningJob.progress_percentage` (`console/models.py`): 0 when
`total_steps` is 0, otherwise `current_step / total_steps * 100` in float
(here exact rational) division. -/
def progressPercentage (j : Job) : ℚ :=
  if j.total_steps = 0 then 0
  else ((j.current_step : ℚ) / (j.total_steps : ℚ)) * 100

/-- `FineTuningJob.duration` (`console/models.py`): 0 when the job never
started, otherwise `(completed_at or now) - started_at` in seconds. -/
def durationOf (j : Job) (now : ℚ) : ℚ :=
  match j.started_at with
  | none => 0
  | some s => j.completed_at.getD now - s

/-- The terminal statuses (completed / failed / cancelled). -/
def isTerminal : Status → Bool
  | .completed => true
  | .failed => true
  | .cancelled => true
  | _ => false

/-- The RUNNING write of `_run_fine_tuning_job` step 1:
`save(update_fields=["status", "started_at"])`. -/
def markRunning (j : Job) (t : ℚ) : Job :=
  { j with status := .running, started_at := some t }

/-- The FAILED write of `_fail_job`:
`save(update_fields=["status", "error_message", "completed_at"])` after a
`refresh_from_db` (the argument is the current persisted row). -/
def failWrite (j : Job) (message : String) (t : ℚ) : Job :=
  { j with status := .failed, error_message := message, completed_at := some t }

/-- The CANCELLED write of `cancel_fine_tuning_job`:
`save(update_fields=["status", "completed_at"])`. -/
def cancelWrite (j : Job) (t : ℚ) : Job :=
  { j with status := .cancelled, completed_at := some t }

/-- The COMPLETED write of `_run_fine_tuning_job` step 5:
`save(update_fields=["status", "fine_tuned_model", "completed_at"])` after
a `refresh_from_db`. -/
def completeWrite (j : Job) (modelName : String) (t : ℚ) : Job :=
  { j with status := .completed, fine_tuned_model := modelName, completed_at := some t }

/-- Splitting accumulator for `pySplitChar`. -/
def splitOnCharAux (c : Char) : List Char → List Char → List String
  | [], acc => [⟨acc.reverse⟩]
  | x :: xs, acc =>
    if x == c then (⟨acc.reverse⟩ : String) :: splitOnCharAux c xs []
    else splitOnCharAux c xs (x :: acc)

/-- Python `s.split(c)` for a one-character separator (always returns at
least one piece; `"".split(c) == [""]`). -/
def pySplitChar (s : String) (c : Char) : List String :=
  splitOnCharAux c s.data []

/-- The result-model name derived in `_run_fine_tuning_job` step 3:
`f"{job.base_model.split(':')[0]}-finetuned-{job.id}"`. -/
def derivedModelName (j : Job) : String :=
  ((pySplitChar j.base_model ':').headD "") ++ "-finetuned-" ++ toString j.id

/-- Python whitespace recognised by `str.strip` and the `\s` class
(ASCII range; the subprocess lines under scrutiny are ASCII). -/
def isPySpace (c : Char) : Bool :=
  c == ' ' || c == '\t' || c == '\n' || c == '\x0d' || c == '\x0b' || c == '\x0c'

/-- Python `str.strip()`. -/
def pyStrip (s : String) : String :=
  ⟨((s.data.dropWhile isPySpace).reverse.dropWhile isPySpace).reverse⟩

/-- Decimal digits. -/
def isAsciiDigit (c : Char) : Bool := '0' ≤ c ∧ c ≤ '9'

/-- Numeric value of a digit string (the `int(...)` of a `\d+` capture). -/
def digitsToNat (ds : List Char) : Nat :=
  ds.foldl (fun n c => n * 10 + (c.toNat - '0'.toNat)) 0

/-- Case-insensitive match of a literal keyword at the head of the input,
returning the rest on success (the regexes use `re.IGNORECASE`). -/
def matchKeywordCI : List Char → List Char → Option (List Char)
  | [], rest => some rest
  | _ :: _, [] => none
  | k :: ks, c :: cs => if k.toLower == c.toLower then matchKeywordCI ks cs else none

/-- Attempt of `epoch\s+(\d+)\s*/\s*(\d+)` (IGNORECASE) anchored at the
head of the input, returning the two captured numbers. -/
def matchEpochAt (cs : List Char) : Option (Nat × Nat) :=
  match matchKeywordCI "epoch".data cs with
  | none => none
  | some r0 =>
    let (sp, r1) := r0.span isPySpace
    if sp.isEmpty then none
    else
      let (d1, r2) := r1.span isAsciiDigit
      if d1.isEmpty then none
      else
        let (_, r3) := r2.span isPySpace
        match r3 with
        | '/' :: r4 =>
          let (_, r5) := r4.span isPySpace
          let (d2, _) := r5.span isAsciiDigit
          if d2.isEmpty then none else some (digitsToNat d1, digitsToNat d2)
        | _ => none

/-- Attempt of `loss[\s:=]+([\d.]+)` (IGNORECASE) anchored at the head of
the input, returning the raw capture (the argument later given to
`float`). -/
def matchLossAt (cs : List Char) : Option String :=
  match matchKeywordCI "loss".data cs with
  | none => none
  | some r0 =>
    let (sep, r1) := r0.span fun c => isPySpace c || c == ':' || c == '='
    if sep.isEmpty then none
    else
      let (cap, _) := r1.span fun c => isAsciiDigit c || c == '.'
      if cap.isEmpty then none else some ⟨cap⟩

/-- Leftmost-position search, as `re.search`: try the anchored matcher at
every suffix of the line, earliest position first. -/
def searchAux (m : List Char → Option α) : List Char → Option α
  | [] => m []
  | c :: rest =>
    match m (c :: rest) with
    | some r => some r
    | none => searchAux m rest

/-- `epoch_pattern.search(line)` of `_execute_training`. -/
def epochSearch (line : String) : Option (Nat × Nat) :=
  searchAux matchEpochAt line.data

/-- `loss_pattern.search(line)` of `_execute_training`. -/
def lossSearch (line : String) : Option String :=
  searchAux matchLossAt line.data

/-- Python `float` applied to a `[\d.]+` capture: defined exactly for
captures with at most one dot and at least one digit (`float("1.2.3")`
and `float(".")` raise `ValueError`, modelled as `none`). -/
def pyFloatOfCapture (s : String) : Option ℚ :=
  match pySplitChar s '.' with
  | [ip] => if ip.isEmpty then none else some (Rat.divInt (digitsToNat ip.data : Int) 1)
  | [ip, fp] =>
    if ip.isEmpty && fp.isEmpty then none
    else
      some (Rat.divInt
        ((digitsToNat ip.data * 10 ^ fp.length + digitsToNat fp.data : Nat) : Int)
        ((10 ^ fp.length : Nat) : Int))
  | _ => none

/-- Environment of one `_execute_training` run: whether the training
binary is on PATH (`FileNotFoundError` from `Popen` otherwise), the lines
subsequently read from the child's combined stdout/stderr, its eventual
exit code, and the cancellation mailbox: `cancelAt = some c` means the
external `cancel_fine_tuning_job` write lands just before the `c`-th
status poll (polls are counted from 0, one per non-blank line), so every
poll with index at least `c` reads CANCELLED; `none` means no cancellation
lands during the run. -/
structure ExecEnv where
  binaryPresent : Bool
  outputLines : List String
  exitCode : Int
  cancelAt : Option Nat

/-- Whether the status poll with index `k` reads CANCELLED. -/
def pollCancelled (cancelAt : Option Nat) (k : Nat) : Bool :=
  match cancelAt with
  | none => false
  | some c => c ≤ k

/-- How the streaming loop of `_execute_training` ends: the stream was
exhausted, a cancellation was observed (the carried job is the CANCELLED
row), or a Python exception escaped the loop body (here only the
`ValueError` of `float` on a malformed loss capture); the carried job is
the last persisted row. -/
inductive LoopExit where
  | exhausted (j : Job)
  | cancelledMid (j : Job)
  | raised (e : PyErr) (j : Job)

/-- The progress update of one informative line: epoch match sets
`current_epoch`, `total_steps = totalEpochs * 100`,
`current_step = epoch * 100`; loss match sets `loss`. -/
def applyLineUpdates (j : Job) (eu : Option (Nat × Nat)) (lq : Option ℚ) : Job :=
  let j1 := match eu with
    | some (e, te) =>
      { j with current_epoch := (e : Int), total_steps := ((te * 100 : Nat) : Int),
               current_step := ((e * 100 : Nat) : Int) }
    | none => j
  match lq with
  | some q => { j1 with loss := some q }
  | none => j1

/-- The per-line loop of `_execute_training`: strip the line and skip it
entirely when blank; otherwise run both pattern searches, convert a loss
capture with `float` (raising `ValueError` on a malformed capture, before
anything of this line is persisted), persist the pending fields when any,
and finally poll the status column, terminating the child and returning
when it reads CANCELLED.  Returns the persisted rows in order together
with the way the loop ended. -/
def execLines (cancelAt : Option Nat) (tCancel : ℚ) :
    List String → Nat → Job → List Job × LoopExit
  | [], _, j => ([], .exhausted j)
  | raw :: rest, k, j =>
    let line := pyStrip raw
    if line = "" then
      execLines cancelAt tCancel rest k j
    else
      let eu := epochSearch line
      match lossSearch line with
      | some cap =>
        match pyFloatOfCapture cap with
        | none => ([], .raised .valueError j)
        | some q =>
          let j1 := applyLineUpdates j eu (some q)
          if pollCancelled cancelAt k then
            let jc := cancelWrite j1 tCancel
            ([j1, jc], .cancelledMid jc)
          else
            let (tr, ex) := execLines cancelAt tCancel rest (k + 1) j1
            (j1 :: tr, ex)
      | none =>
        let j1 := applyLineUpdates j eu none
        let tr1 := if eu.isSome then [j1] else []
        if pollCancelled cancelAt k then
          let jc := cancelWrite j1 tCancel
          (tr1 ++ [jc], .cancelledMid jc)
        else
          let (tr, ex) := execLines cancelAt tCancel rest (k + 1) j1
          (tr1 ++ tr, ex)

/-- What `_execute_training` raises, as seen by `_run_fine_tuning_job`:
the two `FineTuningError` sites (binary not found; non-zero exit code) and
any other Python exception escaping the loop. -/
inductive ExecErr where
  | binaryNotFound
  | exitNonZero (code : Int)
  | pyRaise (e : PyErr)
  deriving DecidableEq

/-- Whether an `ExecErr` is one of the two `FineTuningError` raise sites
of `_execute_training` (a "training error"). -/
def isTrainingFtError : ExecErr → Bool
  | .binaryNotFound => true
  | .exitNonZero _ => true
  | .pyRaise _ => false

/-- `_running_processes[job.id] = process` (dict assignment, keyed set). -/
def registryInsert (id : Nat) (r : List Nat) : List Nat :=
  if id ∈ r then r else id :: r

/-- `_running_processes.pop(job.id, None)`. -/
def registryPop (id : Nat) (r : List Nat) : List Nat :=
  r.filter fun x => x ≠ id

/-- `_execute_training`.  Returns the final process registry (job ids
only; the handles are irrelevant to the claims), the persisted rows in
order, and either the raised error (with the last persisted row) or the
normal result (`true` = returned via the cancellation branch) with the
final row.  The `finally` block pops the registry on every exit path
after `Popen` succeeded; the non-zero-exit check runs after it. -/
def execTraining (env : ExecEnv) (registry : List Nat) (j : Job) (tCancel : ℚ) :
    List Nat × List Job × Except (ExecErr × Job) (Bool × Job) :=
  if !env.binaryPresent then
    (registry, [], .error (.binaryNotFound, j))
  else
    let reg1 := registryInsert j.id registry
    let (tr, ex) := execLines env.cancelAt tCancel env.outputLines 0 j
    let reg2 := registryPop j.id reg1
    match ex with
    | .raised e jdb => (reg2, tr, .error (.pyRaise e, jdb))
    | .cancelledMid jc => (reg2, tr, .ok (true, jc))
    | .exhausted j2 =>
      if env.exitCode ≠ 0 then (reg2, tr, .error (.exitNonZero env.exitCode, j2))
      else (reg2, tr, .ok (false, j2))

/-- `str(FineTuningError)` for the errors raised inside `_execute_training`
(both carry `job_id=job.id`, which `__str__` appends), and the
`"Unexpected error: ..."` message built by the orchestrator's generic
handler for any other exception; `pyErrText` abstracts Python's `str(exc)`
for the latter. -/
def pyErrText : PyErr → String
  | .unicodeDecodeError => "UnicodeDecodeError"
  | .attributeError => "AttributeError"
  | .typeError => "TypeError"
  | .valueError => "ValueError"

/-- The message `_fail_job` receives for a failure of the training step. -/
def execErrMessage (e : ExecErr) (jobId : Nat) : String :=
  match e with
  | .binaryNotFound =>
    "Training binary not found. Ensure llama-finetune (or equivalent) " ++
      s!"is installed and on PATH. (job_id={jobId})"
  | .exitNonZero code => s!"Training process exited with code {code} (job_id={jobId})"
  | .pyRaise pe => "Unexpected error: " ++ pyErrText pe

/-- Environment of one `_run_fine_tuning_job` run: the dataset file found
at `job.dataset_file`, the training-subprocess environment, the outcome of
`_register_model_with_ollama` (`some msg` = it raised a `FineTuningError`
whose `str` is `msg`), and the `timezone.now()` readings for the RUNNING
stamp, the cancellation write and the terminal write. -/
structure RunEnv where
  file : DatasetFile
  exec : ExecEnv
  regError : Option String
  tStart : ℚ
  tCancel : ℚ
  tTerm : ℚ

/-- Result of one orchestrator run: the persisted rows in order (the
RUNNING write first), whether `_execute_training` was invoked, and a
Python exception escaping the thread, if any (the dataset-validation call
is not wrapped in any `try`, so its exceptions kill the thread). -/
structure RunResult where
  trace : List Job
  trainingInvoked : Bool
  uncaught : Option PyErr

/-- `_run_fine_tuning_job` for an existing job row `job0` (a missing row
only logs and returns without any write).  Follows the source order:
mark RUNNING, validate the dataset (any error list fails the job with the
semicolon-joined diagnostics and training is never attempted), derive the
model name, run the training executor, register the model, and finally
re-read and complete the job.  The executor's cancellation branch is a
plain `return`, which this caller cannot distinguish from a normal
return, so on that path too the source proceeds to model registration and
then the step-5 COMPLETED write: `refresh_from_db` re-reads the CANCELLED
row and the save overwrites its status (or `_fail_job` writes FAILED when
registration raises).  Both `.ok` exits of the executor are therefore
handled identically here. -/
def runJob (env : RunEnv) (job0 : Job) : RunResult :=
  let j1 := markRunning job0 env.tStart
  match validate_dataset_format env.file with
  | .error e => ⟨[j1], false, some e⟩
  | .ok (_, errs) =>
    if errs.isEmpty then
      let name := derivedModelName job0
      let (_, tr, res) := execTraining env.exec [] j1 env.tCancel
      match res with
      | .error (e, jdb) =>
        ⟨j1 :: tr ++ [failWrite jdb (execErrMessage e job0.id) env.tTerm], true, none⟩
      | .ok (_, j2) =>
        match env.regError with
        | some m => ⟨j1 :: tr ++ [failWrite j2 m env.tTerm], true, none⟩
        | none => ⟨j1 :: tr ++ [completeWrite j2 name env.tTerm], true, none⟩
    else
      ⟨[j1, failWrite j1 ("Dataset validation failed: " ++ String.intercalate "; " errs)
          env.tTerm], false, none⟩

/-- `cancel_fine_tuning_job`, restricted to its effect on the job row:
a missing row or a row whose status is not RUNNING returns `False` with
no write; otherwise the CANCELLED write is applied and `True` returned
(the process signalling touches no job field). -/
def cancel_fine_tuning_job (store : Option Job) (t : ℚ) : Bool × Option Job :=
  match store with
  | none => (false, none)
  | some job =>
    if job.status = .running then (true, some (cancelWrite job t))
    else (false, some job)

/-- One yielded dict of `get_job_progress_stream` for an existing job. -/
structure Snapshot where
  job_id : Nat
  status : Status
  progress : ℚ
  current_epoch : Int
  current_step : Int
  total_steps : Int
  loss : Option ℚ
  duration : ℚ
  done : Bool
  deriving DecidableEq

/-- An element of the progress stream: the single
`{"error": "Job not found", "done": true}` dict, or a snapshot. -/
inductive StreamElem where
  | notFound
  | snap (s : Snapshot)
  deriving DecidableEq

/-- The snapshot built by the loop body of `get_job_progress_stream`. -/
def snapshotOf (j : Job) (now : ℚ) : Snapshot :=
  { job_id := j.id
    status := j.status
    progress := progressPercentage j
    current_epoch := j.current_epoch
    current_step := j.current_step
    total_steps := j.total_steps
    loss := j.loss
    duration := durationOf j now
    done := isTerminal j.status }

/-- Environment of one `get_job_progress_stream` consumer: the job row
read at the `n`-th poll (the store may change between polls) and the
`timezone.now()` reading of that poll. -/
structure StreamEnv where
  jobAt : Nat → Option Job
  nowAt : Nat → ℚ

/-- `get_job_progress_stream`, with the generator's unbounded `while True`
made total by a fuel bound on the number of polls: each poll re-reads the
job, yields the not-found element and stops when the row is absent, and
otherwise yields a snapshot, stopping after it when the status is
terminal. -/
def progressStream (env : StreamEnv) : Nat → Nat → List StreamElem
  | _, 0 => []
  | n, fuel + 1 =>
    match env.jobAt n with
    | none => [.notFound]
    | some j =>
      let e := StreamElem.snap (snapshotOf j (env.nowAt n))
      if isTerminal j.status then [e] else e :: progressStream env (n + 1) fuel

/-- The three mutually exclusive ways the streaming loop of
`_execute_training` can end, as a function of the environment alone. -/
inductive Fate where
  | exhaustEnd
  | cancelMid
  | parseRaise
  deriving DecidableEq

/-- Projection of `execLines` onto its control decisions: which exit the
loop takes, determined by the output lines and the cancellation mailbox
only (the job row never feeds back into the control flow). -/
def streamFate (cancelAt : Option Nat) : List String → Nat → Fate
  | [], _ => .exhaustEnd
  | raw :: rest, k =>
    let line := pyStrip raw
    if line = "" then
      streamFate cancelAt rest k
    else
      let bad := match lossSearch line with
        | some cap => (pyFloatOfCapture cap).isNone
        | none => false
      if bad then .parseRaise
      else if pollCancelled cancelAt k then .cancelMid
      else streamFate cancelAt rest (k + 1)

/-- Values on which Python's membership test (`"role" in msg`) does not
raise: dicts, lists and strings.  Numbers, booleans and `None` raise
`TypeError`. -/
def msgBenign : Json → Bool
  | .obj _ => true
  | .arr _ => true
  | .str _ => true
  | _ => false

/-- Lines on which `_validate_jsonl` does not raise: blank lines, decode
failures, and JSON objects whose `messages` list (when present and a
list) holds only membership-testable elements.  A line whose top-level
value is not an object makes `data.get` raise `AttributeError`. -/
def lineBenign : JsonlLine → Bool
  | .blank => true
  | .invalid _ => true
  | .value (.obj fields) =>
    match fields.lookup "messages" with
    | some (.arr msgs) => msgs.all msgBenign
    | _ => true
  | .value _ => false

/-- A dataset file on which `validate_dataset_format` does not raise:
whichever branch its extension selects must decode, and the `.jsonl`
branch must only meet benign lines. -/
def fileBenign (f : DatasetFile) : Prop :=
  (pyEndswith f.path ".jsonl" = true →
    f.decodable = true ∧ ∀ l ∈ f.jsonlView, lineBenign l = true) ∧
  (pyEndswith f.path ".csv" = true → f.decodable = true)

/-- A well-formed message: a JSON object carrying both `role` and
`content` keys. -/
def msgGood : Json → Bool
  | .obj mf => (mf.any fun p => p.1 == "role") && (mf.any fun p => p.1 == "content")
  | _ => false

/-- A valid `.jsonl` record: a JSON object whose `messages` field is a
list of well-formed messages. -/
def lineGoodJsonl : JsonlLine → Bool
  | .value (.obj fields) =>
    match fields.lookup "messages" with
    | some (.arr msgs) => msgs.all msgGood
    | _ => false
  | _ => false

/-- Blank lines (skipped and not counted by `_validate_jsonl`). -/
def isBlankLine : JsonlLine → Bool
  | .blank => true
  | _ => false

/-- The number of non-blank lines of a `.jsonl` view (the record count
`_validate_jsonl` reports). -/
def countNonBlankLines (lines : List JsonlLine) : Nat :=
  lines.countP fun l => !isBlankLine l

theorem messageMissing_ok_of_benign (m : Json) (h : msgBenign m = true) :
    ∃ b, messageMissing m = .ok b := by
  have h1 : ∃ r, pyIn "role" m = .ok r := by
    cases m <;> simp [msgBenign] at h <;> exact ⟨_, rfl⟩
  have h2 : ∃ c, pyIn "content" m = .ok c := by
    cases m <;> simp [msgBenign] at h <;> exact ⟨_, rfl⟩
  obtain ⟨r, hr⟩ := h1
  obtain ⟨c, hc⟩ := h2
  refine ⟨if !r then true else !c, ?_⟩
  simp only [messageMissing, bind, Except.bind, hr, hc]
  cases r <;> simp [pure, Except.pure]

theorem checkMessages_ok_of_benign (i : Nat) :
    ∀ (jdx : Nat) (msgs : List Json), (∀ m ∈ msgs, msgBenign m = true) →
      ∃ es, checkMessages i jdx msgs = .ok es := by
  intro jdx msgs
  induction msgs generalizing jdx with
  | nil => intro _; exact ⟨[], rfl⟩
  | cons m rest ih =>
    intro h
    obtain ⟨b, hb⟩ := messageMissing_ok_of_benign m (h m (List.mem_cons_self _ _))
    obtain ⟨es, hes⟩ := ih (jdx + 1) (fun x hx => h x (List.mem_cons_of_mem _ hx))
    refine ⟨if b then (s!"Line {i}, message {jdx}: missing \x27role\x27 or \x27content\x27") :: es else es, ?_⟩
    simp only [checkMessages, bind, Except.bind, hb, hes]
    split <;> simp

theorem jsonlValueErrors_ok_of_benign (i : Nat) (v : Json)
    (h : lineBenign (.value v) = true) : ∃ es, jsonlValueErrors i v = .ok es := by
  cases v with
  | obj fields =>
    rcases hk : fields.lookup "messages" with _ | mv
    · exact ⟨[s!"Line {i}: Missing \x27messages\x27 field"], by simp [jsonlValueErrors, hk]⟩
    · cases mv with
      | arr msgs =>
        have hb : ∀ m ∈ msgs, msgBenign m = true := by
          simp only [lineBenign, hk] at h
          exact fun m hm => by
            rw [List.all_eq_true] at h; exact h m hm
        obtain ⟨es, hes⟩ := checkMessages_ok_of_benign i 0 msgs hb
        exact ⟨es, by simp [jsonlValueErrors, hk, hes]⟩
      | null =>
        exact ⟨[s!"Line {i}: Missing \x27messages\x27 field"], by simp [jsonlValueErrors, hk]⟩
      | bool b =>
        exact ⟨[s!"Line {i}: \x27messages\x27 must be a list"], by simp [jsonlValueErrors, hk]⟩
      | num q =>
        exact ⟨[s!"Line {i}: \x27messages\x27 must be a list"], by simp [jsonlValueErrors, hk]⟩
      | str s =>
        exact ⟨[s!"Line {i}: \x27messages\x27 must be a list"], by simp [jsonlValueErrors, hk]⟩
      | obj g =>
        exact ⟨[s!"Line {i}: \x27messages\x27 must be a list"], by simp [jsonlValueErrors, hk]⟩
  | null => simp [lineBenign] at h
  | bool b => simp [lineBenign] at h
  | num q => simp [lineBenign] at h
  | str s => simp [lineBenign] at h
  | arr xs => simp [lineBenign] at h

theorem validateJsonlFrom_ok_of_benign :
    ∀ (lines : List JsonlLine) (i : Nat), (∀ l ∈ lines, lineBenign l = true) →
      ∃ p, validateJsonlFrom i lines = .ok p := by
  intro lines
  induction lines with
  | nil => intro i _; exact ⟨(0, []), rfl⟩
  | cons l rest ih =>
    intro i h
    have hrest : ∀ x ∈ rest, lineBenign x = true :=
      fun x hx => h x (List.mem_cons_of_mem _ hx)
    obtain ⟨p, hp⟩ := ih (i + 1) hrest
    cases l with
    | blank => exact ⟨p, by simpa [validateJsonlFrom] using hp⟩
    | invalid e =>
      exact ⟨(p.1 + 1, (s!"Line {i}: Invalid JSON – " ++ e) :: p.2), by
        simp [validateJsonlFrom, bind, Except.bind, hp]⟩
    | value v =>
      obtain ⟨es, hes⟩ := jsonlValueErrors_ok_of_benign i v (h _ (by simp))
      exact ⟨(p.1 + 1, es ++ p.2), by
        simp [validateJsonlFrom, bind, Except.bind, hp, hes]⟩

theorem messageMissing_of_good (m : Json) (h : msgGood m = true) :
    messageMissing m = .ok false := by
  cases m with
  | obj mf =>
    unfold msgGood at h
    rw [Bool.and_eq_true] at h
    obtain ⟨hr, hc⟩ := h
    simp [messageMissing, pyIn, bind, Except.bind, hr, hc, pure, Except.pure]
  | null => simp [msgGood] at h
  | bool b => simp [msgGood] at h
  | num q => simp [msgGood] at h
  | str s => simp [msgGood] at h
  | arr xs => simp [msgGood] at h

theorem checkMessages_of_good (i : Nat) :
    ∀ (jdx : Nat) (msgs : List Json), (∀ m ∈ msgs, msgGood m = true) →
      checkMessages i jdx msgs = .ok [] := by
  intro jdx msgs
  induction msgs generalizing jdx with
  | nil => intro _; rfl
  | cons m rest ih =>
    intro h
    have hm := messageMissing_of_good m (h m (List.mem_cons_self _ _))
    have hr := ih (jdx + 1) (fun x hx => h x (List.mem_cons_of_mem _ hx))
    simp [checkMessages, bind, Except.bind, hm, hr]

theorem validateJsonlFrom_of_good :
    ∀ (lines : List JsonlLine) (i : Nat),
      (∀ l ∈ lines, isBlankLine l = true ∨ lineGoodJsonl l = true) →
      validateJsonlFrom i lines = .ok (countNonBlankLines lines, []) := by
  intro lines
  induction lines with
  | nil => intro i _; rfl
  | cons l rest ih =>
    intro i h
    have hrest := ih (i + 1) (fun x hx => h x (List.mem_cons_of_mem _ hx))
    rcases h l (List.mem_cons_self _ _) with hb | hg
    · cases l with
      | blank => simpa [validateJsonlFrom, countNonBlankLines, isBlankLine] using hrest
      | invalid e => simp [isBlankLine] at hb
      | value v => simp [isBlankLine] at hb
    · cases l with
      | blank => simpa [validateJsonlFrom, countNonBlankLines, isBlankLine] using hrest
      | invalid e => simp [lineGoodJsonl] at hg
      | value v =>
        cases v with
        | obj fields =>
          rcases hk : fields.lookup "messages" with _ | mv
          · rw [show lineGoodJsonl (.value (.obj fields)) =
                (match fields.lookup "messages" with
                  | some (.arr msgs) => msgs.all msgGood
                  | _ => false) from rfl, hk] at hg
            simp at hg
          · rw [show lineGoodJsonl (.value (.obj fields)) =
                (match fields.lookup "messages" with
                  | some (.arr msgs) => msgs.all msgGood
                  | _ => false) from rfl, hk] at hg
            cases mv with
            | arr msgs =>
              have hgm : ∀ m ∈ msgs, msgGood m = true := by
                intro m hm
                simp only [] at hg
                rw [List.all_eq_true] at hg
                exact hg m hm
              have hc := checkMessages_of_good i 0 msgs hgm
              simp [validateJsonlFrom, bind, Except.bind, jsonlValueErrors, hk, hc,
                hrest, countNonBlankLines, isBlankLine]
            | null => simp at hg
            | bool b => simp at hg
            | num q => simp at hg
            | str s => simp at hg
            | obj g => simp at hg
        | null => simp [lineGoodJsonl] at hg
        | bool b => simp [lineGoodJsonl] at hg
        | num q => simp [lineGoodJsonl] at hg
        | str s => simp [lineGoodJsonl] at hg
        | arr xs => simp [lineGoodJsonl] at hg

/-- A well-formed two-message record used by several concrete scenarios. -/
def goodMsg : Json := .obj [("role", .str "user"), ("content", .str "Hello")]

/-- A valid `.jsonl` record holding two well-formed messages. -/
def goodRecord : JsonlLine := .value (.obj [("messages", .arr [goodMsg, goodMsg])])

/-- A well-formed `.jsonl` dataset file: two valid records around a blank
line. -/
def fGood : DatasetFile :=
  { path := "data.jsonl", fsExists := true, ioError := none, decodable := true,
    jsonlView := [goodRecord, .blank, goodRecord], csvHeader := none, csvRows := [] }

/-- A `.jsonl` dataset file whose single line is the valid JSON text `5`:
syntactically fine, but its top-level value is not an object. -/
def fNumberLine : DatasetFile :=
  { path := "data.jsonl", fsExists := true, ioError := none, decodable := true,
    jsonlView := [.value (.num 5)], csvHeader := none, csvRows := [] }

/-- C3 (counterexample): `validate_dataset_format` does raise.  On a
`.jsonl` file whose single line is the JSON number `5`, the source runs
`json.loads(line).get("messages")` on an `int`, which raises
`AttributeError`; only `OSError` is caught, so the exception escapes the
function instead of being returned as a structured error — refuting
"never raises ... any content including undecodable or ill-typed
content". -/
theorem c3_counterexample :
    validate_dataset_format fNumberLine = .error .attributeError := by decide

/-- C3 (amended): `validate_dataset_format` never raises *provided* the
branch selected by the extension decodes and, for `.jsonl`, every line's
top-level JSON value is an object and every element of a `messages` list
supports Python's membership test; in that case it returns a record count
(a natural number, hence ≥ 0) with a possibly empty error list.  And for
a `.jsonl` file whose non-blank lines are all valid JSON objects with
well-formed messages it returns exactly (number of non-blank lines, []). -/
theorem c3_theorem :
    (∀ f : DatasetFile, fileBenign f →
      ∃ p : Nat × List String, validate_dataset_format f = .ok p) ∧
    (∀ f : DatasetFile, f.fsExists = true → f.ioError = none → f.decodable = true →
      pyEndswith f.path ".jsonl" = true →
      (∀ l ∈ f.jsonlView, isBlankLine l = true ∨ lineGoodJsonl l = true) →
      validate_dataset_format f = .ok (countNonBlankLines f.jsonlView, [])) := by
  constructor
  · intro f hb
    by_cases hex : f.fsExists = true
    · rcases hio : f.ioError with _ | m
      · by_cases hj : pyEndswith f.path ".jsonl" = true
        · obtain ⟨hdec, hlines⟩ := hb.1 hj
          obtain ⟨p, hp⟩ := validateJsonlFrom_ok_of_benign f.jsonlView 1 hlines
          exact ⟨p, by simp [validate_dataset_format, hex, hio, hj, hdec, hp]⟩
        · by_cases hc : pyEndswith f.path ".csv" = true
          · have hdec := hb.2 hc
            exact ⟨validateCsv f.csvHeader f.csvRows, by
              simp [validate_dataset_format, hex, hio, hj, hc, hdec]⟩
          · exact ⟨(0, ["Unsupported file format. Use .jsonl or .csv"]), by
              simp [validate_dataset_format, hex, hio, hj, hc]⟩
      · exact ⟨(0, ["Error reading dataset: " ++ m]), by
          simp [validate_dataset_format, hex, hio]⟩
    · have hex2 : f.fsExists = false := by simpa using hex
      exact ⟨(0, [s!"Dataset file not found: {f.path}"]), by
        simp [validate_dataset_format, hex2]⟩
  · intro f hex hio hdec hjl hlines
    have hv := validateJsonlFrom_of_good f.jsonlView 1 hlines
    simp [validate_dataset_format, hex, hio, hdec, hjl, hv]

/-- C3 witness: both halves applied to the concrete well-formed file. -/
theorem c3_witness :
    (∃ p : Nat × List String, validate_dataset_format fGood = .ok p) ∧
    validate_dataset_format fGood = .ok (2, []) := by
  constructor
  · exact c3_theorem.1 fGood (by constructor <;> intro h <;> first | exact ⟨rfl, by decide⟩ | rfl)
  · have h := c3_theorem.2 fGood rfl rfl rfl (by decide) (by decide)
    simpa using h

theorem csv_not_jsonl {s : String} (h : pyEndswith s ".csv" = true) :
    pyEndswith s ".jsonl" = false := by
  have hcsv : (".csv" : String).data.reverse = ['v', 's', 'c', '.'] := rfl
  have hjsl : (".jsonl" : String).data.reverse = ['l', 'n', 'o', 's', 'j', '.'] := rfl
  unfold pyEndswith at h ⊢
  rw [hcsv] at h
  rw [hjsl]
  rcases hr : s.data.reverse with _ | ⟨c, rest⟩
  · rw [hr] at h; simp [List.isPrefixOf] at h
  · rw [hr] at h
    simp [List.isPrefixOf] at h ⊢
    intro hc
    rw [← hc] at h
    simp at h

/-- A `.csv` dataset file whose header has neither required column. -/
def fCsvWrongCols : DatasetFile :=
  { path := "data.csv", fsExists := true, ioError := none, decodable := true,
    jsonlView := [], csvHeader := some ["wrong", "columns"],
    csvRows := [[("wrong", some "a"), ("columns", some "b")]] }

/-- C7: for every decodable, readable `.csv` dataset file whose header
lacks the `role` column or the `content` column (the empty file has
`csvHeader = none`, hence lacks both), `validate_dataset_format` returns
record count 0 and exactly one error, regardless of the data rows. -/
theorem c7_theorem (f : DatasetFile) (hex : f.fsExists = true) (hio : f.ioError = none)
    (hdec : f.decodable = true) (hcsv : pyEndswith f.path ".csv" = true)
    (hmiss : "role" ∉ f.csvHeader.getD [] ∨ "content" ∉ f.csvHeader.getD []) :
    validate_dataset_format f =
      .ok (0, ["CSV is missing required columns: " ++ String.intercalate ", "
        (["content", "role"].filter fun c => (f.csvHeader.getD []).all fun g => g ≠ c)]) := by
  have hj := csv_not_jsonl hcsv
  have hne : (["content", "role"].filter fun c =>
      (f.csvHeader.getD []).all fun g => g ≠ c) ≠ [] := by
    rcases hmiss with hm | hm
    · apply List.ne_nil_of_mem (a := "role")
      apply List.mem_filter.mpr
      refine ⟨by simp, ?_⟩
      simp only [decide_eq_true_eq, List.all_eq_true]
      exact fun g hg e => hm (e ▸ hg)
    · apply List.ne_nil_of_mem (a := "content")
      apply List.mem_filter.mpr
      refine ⟨by simp, ?_⟩
      simp only [decide_eq_true_eq, List.all_eq_true]
      exact fun g hg e => hm (e ▸ hg)
  have hemp : (["content", "role"].filter fun c =>
      (f.csvHeader.getD []).all fun g => g ≠ c).isEmpty = false := by
    rcases hl : (["content", "role"].filter fun c =>
        (f.csvHeader.getD []).all fun g => g ≠ c) with _ | ⟨x, xs⟩
    · exact absurd hl hne
    · rfl
  have hemp2 : ¬((["content", "role"].filter fun c =>
      (f.csvHeader.getD []).all fun g => g ≠ c).isEmpty = true) := by
    rw [hemp]; exact Bool.false_ne_true
  simp only [validate_dataset_format, validateCsv, hex, hio, hj, hcsv, hdec,
    Bool.not_true, Bool.false_eq_true, if_false, if_true]
  rw [if_neg hemp2]

/-- C7 witness: the theorem applied to a concrete `.csv` file with a
wrong header, yielding count 0 and the single missing-columns error. -/
theorem c7_witness :
    validate_dataset_format fCsvWrongCols =
      .ok (0, ["CSV is missing required columns: " ++ String.intercalate ", "
        (["content", "role"].filter fun c =>
          (fCsvWrongCols.csvHeader.getD []).all fun g => g ≠ c)]) :=
  c7_theorem fCsvWrongCols rfl rfl rfl (by decide) (.inl (by decide))

/-- A freshly created job as the API handler creates it: PENDING, empty
`fine_tuned_model`, zeroed progress. -/
def jobScenario : Job :=
  { id := 7, name := "t", base_model := "m:latest", fine_tuned_model := "",
    epochs := 2, learning_rate := 0, batch_size := 4,
    dataset_file := "data.jsonl", dataset_size := 2, status := .pending,
    current_epoch := 0, current_step := 0, total_steps := 0, loss := none,
    created_at := 0, started_at := none, completed_at := none, error_message := "" }

/-- The environment of the success scenario: a valid dataset, the training
binary present, output lines "epoch 1/2", "loss: 0.45", "epoch 2/2", exit
code 0, no cancellation, registration succeeding. -/
def envScenario : RunEnv :=
  { file := fGood,
    exec := { binaryPresent := true,
              outputLines := ["epoch 1/2", "loss: 0.45", "epoch 2/2"],
              exitCode := 0, cancelAt := none },
    regError := none, tStart := 10, tCancel := 0, tTerm := 20 }

/-- C4: in the scenario where the training subprocess emits "epoch 1/2",
"loss: 0.45", "epoch 2/2", exits 0, and registration succeeds, the last
persisted row of the run is COMPLETED with `current_epoch = 2`,
`total_steps = 200`, `current_step = 200`, `loss = 0.45` (the rational
45/100) and `fine_tuned_model` set to the derived name
(`"m-finetuned-7"` for this job). -/
theorem c4_theorem :
    ((runJob envScenario jobScenario).trace.getLast?).map Job.status = some .completed ∧
    ((runJob envScenario jobScenario).trace.getLast?).map Job.current_epoch = some 2 ∧
    ((runJob envScenario jobScenario).trace.getLast?).map Job.total_steps = some 200 ∧
    ((runJob envScenario jobScenario).trace.getLast?).map Job.current_step = some 200 ∧
    ((runJob envScenario jobScenario).trace.getLast?).map Job.loss = some (some (mkRat 45 100)) ∧
    ((runJob envScenario jobScenario).trace.getLast?).map Job.fine_tuned_model =
      some (derivedModelName jobScenario) ∧
    derivedModelName jobScenario = "m-finetuned-7" := by decide

/-- C6: cancelling a job that does not exist, or whose status is not
RUNNING, returns `False` and leaves the job row (every field) unchanged. -/
theorem c6_theorem :
    (∀ t : ℚ, cancel_fine_tuning_job none t = (false, none)) ∧
    (∀ (j : Job) (t : ℚ), j.status ≠ .running →
      cancel_fine_tuning_job (some j) t = (false, some j)) := by
  constructor
  · intro t; rfl
  · intro j t h
    simp [cancel_fine_tuning_job, h]

/-- C6 witness: a missing row and a concrete PENDING job. -/
theorem c6_witness :
    cancel_fine_tuning_job none 5 = (false, none) ∧
    cancel_fine_tuning_job (some jobScenario) 5 = (false, some jobScenario) :=
  ⟨c6_theorem.1 5, c6_theorem.2 jobScenario 5 (by decide)⟩

/-- C9: once the subprocess was started (the binary was found), the
process registry returned by `_execute_training` no longer contains the
job's id, on every exit path (normal exhaustion, cancellation return, or
a raised error): the `finally` block pops the entry before the function
returns or raises. -/
theorem c9_theorem (env : ExecEnv) (registry : List Nat) (j : Job) (tc : ℚ)
    (hb : env.binaryPresent = true) :
    j.id ∉ (execTraining env registry j tc).1 := by
  unfold execTraining
  rw [hb]
  simp only [Bool.not_true, Bool.false_eq_true, if_false]
  rcases hex : execLines env.cancelAt tc env.outputLines 0 j with ⟨tr, ex⟩
  cases ex with
  | exhausted j2 =>
    by_cases hc : env.exitCode = 0 <;>
      simp [hc, registryPop, List.mem_filter]
  | cancelledMid jc => simp [registryPop, List.mem_filter]
  | raised e jd => simp [registryPop, List.mem_filter]

/-- C9 witness: the registry after the scenario run never holds id 7,
even though it did before the call. -/
theorem c9_witness : jobScenario.id ∉ (execTraining envScenario.exec [7] jobScenario 0).1 :=
  c9_theorem envScenario.exec [7] jobScenario 0 rfl

/-- C10: the three terminal writes update only their own named columns
(`update_fields`), so the progress fields (`current_epoch`,
`current_step`, `total_steps`, `loss`) and the hyperparameters (`epochs`,
`learning_rate`, `batch_size`) keep their last persisted values; each
write does set its own status. -/
theorem c10_theorem (j : Job) (msg name : String) (t : ℚ) :
    ((failWrite j msg t).status = .failed ∧
     (failWrite j msg t).current_epoch = j.current_epoch ∧
     (failWrite j msg t).current_step = j.current_step ∧
     (failWrite j msg t).total_steps = j.total_steps ∧
     (failWrite j msg t).loss = j.loss ∧
     (failWrite j msg t).epochs = j.epochs ∧
     (failWrite j msg t).learning_rate = j.learning_rate ∧
     (failWrite j msg t).batch_size = j.batch_size) ∧
    ((cancelWrite j t).status = .cancelled ∧
     (cancelWrite j t).current_epoch = j.current_epoch ∧
     (cancelWrite j t).current_step = j.current_step ∧
     (cancelWrite j t).total_steps = j.total_steps ∧
     (cancelWrite j t).loss = j.loss ∧
     (cancelWrite j t).epochs = j.epochs ∧
     (cancelWrite j t).learning_rate = j.learning_rate ∧
     (cancelWrite j t).batch_size = j.batch_size) ∧
    ((completeWrite j name t).status = .completed ∧
     (completeWrite j name t).current_epoch = j.current_epoch ∧
     (completeWrite j name t).current_step = j.current_step ∧
     (completeWrite j name t).total_steps = j.total_steps ∧
     (completeWrite j name t).loss = j.loss ∧
     (completeWrite j name t).epochs = j.epochs ∧
     (completeWrite j name t).learning_rate = j.learning_rate ∧
     (completeWrite j name t).batch_size = j.batch_size) :=
  ⟨⟨rfl, rfl, rfl, rfl, rfl, rfl, rfl, rfl⟩,
   ⟨rfl, rfl, rfl, rfl, rfl, rfl, rfl, rfl⟩,
   ⟨rfl, rfl, rfl, rfl, rfl, rfl, rfl, rfl⟩⟩

/-- A run environment whose dataset file fails validation: its single
line is not valid JSON, so the validator returns one error. -/
def envFailVal : RunEnv :=
  { file := { path := "data.jsonl", fsExists := true, ioError := none, decodable := true,
              jsonlView := [.invalid "boom"], csvHeader := none, csvRows := [] },
    exec := { binaryPresent := true, outputLines := [], exitCode := 0, cancelAt := none },
    regError := none, tStart := 1, tCancel := 2, tTerm := 3 }

/-- C1 (counterexample): on a dataset whose validation returns a
non-empty error list, the orchestrator still reaches RUNNING — the source
marks the job RUNNING (step 1) before validating (step 2) — refuting
"the job never reaches the RUNNING status at any point of the run". -/
theorem c1_counterexample :
    validate_dataset_format envFailVal.file = .ok (1, ["Line 1: Invalid JSON – boom"]) ∧
    ¬ (∀ j ∈ (runJob envFailVal jobScenario).trace, j.status ≠ .running) := by decide

/-- C1 (amended): for every job whose dataset validation returns a
non-empty error list, the run persists exactly two rows — the RUNNING
write, then the FAILED write carrying
"Dataset validation failed: " + the "; "-joined error list — and the
training executor is never invoked.  (The job does transiently reach
RUNNING, because the source marks it RUNNING before validating.) -/
theorem c1_theorem (env : RunEnv) (job0 : Job) (n : Nat) (errs : List String)
    (hv : validate_dataset_format env.file = .ok (n, errs)) (hne : errs ≠ []) :
    (runJob env job0).trace =
      [markRunning job0 env.tStart,
       failWrite (markRunning job0 env.tStart)
         ("Dataset validation failed: " ++ String.intercalate "; " errs) env.tTerm] ∧
    (runJob env job0).trainingInvoked = false := by
  have he : errs.isEmpty = false := by
    cases errs with
    | nil => exact absurd rfl hne
    | cons x xs => rfl
  constructor <;> simp [runJob, hv, he]

/-- C1 witness: the amended theorem applied to the concrete failing
environment. -/
theorem c1_witness :
    (runJob envFailVal jobScenario).trace =
      [markRunning jobScenario envFailVal.tStart,
       failWrite (markRunning jobScenario envFailVal.tStart)
         ("Dataset validation failed: " ++
           String.intercalate "; " ["Line 1: Invalid JSON – boom"]) envFailVal.tTerm] ∧
    (runJob envFailVal jobScenario).trainingInvoked = false :=
  c1_theorem envFailVal jobScenario 1 ["Line 1: Invalid JSON – boom"] (by decide) (by decide)

/-- The job row carried by a loop exit (the last persisted row). -/
def LoopExit.job : LoopExit → Job
  | .exhausted j => j
  | .cancelledMid j => j
  | .raised _ j => j

/-- Which of the three exits a `LoopExit` is. -/
def LoopExit.kind : LoopExit → Fate
  | .exhausted _ => .exhaustEnd
  | .cancelledMid _ => .cancelMid
  | .raised _ _ => .parseRaise

/-- Rows reachable from `base` by executor writes: the model name is
untouched and the status is either still the one of `base` or CANCELLED. -/
def jobLike (base x : Job) : Prop :=
  x.fine_tuned_model = base.fine_tuned_model ∧
    (x.status = base.status ∨ x.status = .cancelled)

theorem jobLike_refl (j : Job) : jobLike j j := ⟨rfl, .inl rfl⟩

theorem jobLike_trans {j j1 x : Job} (h1 : jobLike j j1) (h2 : jobLike j1 x) :
    jobLike j x := by
  refine ⟨h2.1.trans h1.1, ?_⟩
  rcases h2.2 with h | h
  · rw [h]; exact h1.2
  · exact .inr h

theorem jobLike_applyLineUpdates (j : Job) (eu : Option (Nat × Nat)) (lq : Option ℚ) :
    jobLike j (applyLineUpdates j eu lq) := by
  unfold applyLineUpdates
  rcases eu with _ | ⟨e, te⟩ <;> rcases lq with _ | q <;> exact ⟨rfl, .inl rfl⟩

theorem jobLike_cancelWrite {j x : Job} (h : jobLike j x) (tc : ℚ) :
    jobLike j (cancelWrite x tc) := ⟨h.1, .inr rfl⟩

theorem execLines_jobLike (cancelAt : Option Nat) (tc : ℚ) :
    ∀ (lines : List String) (k : Nat) (j : Job),
      (∀ x ∈ (execLines cancelAt tc lines k j).1, jobLike j x) ∧
      jobLike j ((execLines cancelAt tc lines k j).2.job) := by
  intro lines
  induction lines with
  | nil =>
    intro k j
    exact ⟨fun x hx => by simp [execLines] at hx, jobLike_refl j⟩
  | cons raw rest ih =>
    intro k j
    simp only [execLines]
    by_cases hblank : pyStrip raw = ""
    · rw [if_pos hblank]
      exact ih k j
    · rw [if_neg hblank]
      rcases hl : lossSearch (pyStrip raw) with _ | cap <;> dsimp only [LoopExit.job]
      · -- no loss match
        have hj1 := jobLike_applyLineUpdates j (epochSearch (pyStrip raw)) none
        by_cases hp : pollCancelled cancelAt k = true
        · rw [if_pos hp]
          dsimp only [LoopExit.job]
          constructor
          · intro x hx
            rcases List.mem_append.mp hx with hx1 | hx2
            · rcases hs : (epochSearch (pyStrip raw)).isSome with _ | _ <;> rw [hs] at hx1
              · simp at hx1
              · simp at hx1
                rw [hx1]; exact hj1
            · simp at hx2
              rw [hx2]
              exact jobLike_cancelWrite hj1 tc
          · exact jobLike_cancelWrite hj1 tc
        · rw [if_neg hp]
          rcases hrec : execLines cancelAt tc rest (k + 1)
              (applyLineUpdates j (epochSearch (pyStrip raw)) none) with ⟨tr, ex⟩
          dsimp only [LoopExit.job]
          have hih := ih (k + 1) (applyLineUpdates j (epochSearch (pyStrip raw)) none)
          rw [hrec] at hih
          constructor
          · intro x hx
            rcases List.mem_append.mp hx with hx1 | hx2
            · rcases hs : (epochSearch (pyStrip raw)).isSome with _ | _ <;> rw [hs] at hx1
              · simp at hx1
              · simp at hx1
                rw [hx1]; exact hj1
            · exact jobLike_trans hj1 (hih.1 x hx2)
          · exact jobLike_trans hj1 hih.2
      · -- loss match: float conversion first
        rcases hf : pyFloatOfCapture cap with _ | q <;> dsimp only [LoopExit.job]
        · exact ⟨fun x hx => by simp at hx, jobLike_refl j⟩
        · have hj1 := jobLike_applyLineUpdates j (epochSearch (pyStrip raw)) (some q)
          by_cases hp : pollCancelled cancelAt k = true
          · rw [if_pos hp]
            dsimp only [LoopExit.job]
            refine ⟨fun x hx => ?_, jobLike_cancelWrite hj1 tc⟩
            simp at hx
            rcases hx with hx1 | hx2
            · rw [hx1]; exact hj1
            · rw [hx2]; exact jobLike_cancelWrite hj1 tc
          · rw [if_neg hp]
            rcases hrec : execLines cancelAt tc rest (k + 1)
                (applyLineUpdates j (epochSearch (pyStrip raw)) (some q)) with ⟨tr, ex⟩
            dsimp only [LoopExit.job]
            have hih := ih (k + 1) (applyLineUpdates j (epochSearch (pyStrip raw)) (some q))
            rw [hrec] at hih
            constructor
            · intro x hx
              simp at hx
              rcases hx with hx1 | hx2
              · rw [hx1]; exact hj1
              · exact jobLike_trans hj1 (hih.1 x hx2)
            · exact jobLike_trans hj1 hih.2

theorem execTraining_jobLike (env : ExecEnv) (registry : List Nat) (j : Job) (tc : ℚ) :
    (∀ x ∈ (execTraining env registry j tc).2.1, jobLike j x) ∧
    (∀ e jd, (execTraining env registry j tc).2.2 = .error (e, jd) → jobLike j jd) ∧
    (∀ c j2, (execTraining env registry j tc).2.2 = .ok (c, j2) → jobLike j j2) := by
  unfold execTraining
  by_cases hb : env.binaryPresent = true
  · rw [hb]
    simp only [Bool.not_true, Bool.false_eq_true, if_false]
    rcases hex : execLines env.cancelAt tc env.outputLines 0 j with ⟨tr, ex⟩
    have hl := execLines_jobLike env.cancelAt tc env.outputLines 0 j
    rw [hex] at hl
    cases ex with
    | exhausted j2 =>
      dsimp only
      dsimp only [LoopExit.job] at hl
      by_cases hc : env.exitCode = 0
      · rw [if_neg (not_not_intro hc)]
        refine ⟨hl.1, ?_, ?_⟩
        · intro a b hab; simp at hab
        · intro c j2b hab
          simp at hab
          obtain ⟨-, rfl⟩ := hab
          exact hl.2
      · rw [if_pos hc]
        refine ⟨hl.1, ?_, ?_⟩
        · intro a b hab
          simp at hab
          obtain ⟨-, rfl⟩ := hab
          exact hl.2
        · intro c j2b hab; simp at hab
    | cancelledMid jc =>
      dsimp only
      dsimp only [LoopExit.job] at hl
      refine ⟨hl.1, ?_, ?_⟩
      · intro a b hab; simp at hab
      · intro c j2b hab
        simp at hab
        obtain ⟨-, rfl⟩ := hab
        exact hl.2
    | raised e jd =>
      dsimp only
      dsimp only [LoopExit.job] at hl
      refine ⟨hl.1, ?_, ?_⟩
      · intro a b hab
        simp at hab
        obtain ⟨-, rfl⟩ := hab
        exact hl.2
      · intro c j2b hab; simp at hab
  · have hb2 : env.binaryPresent = false := by simpa using hb
    rw [hb2]
    simp only [Bool.not_false, if_true]
    refine ⟨fun x hx => by simp at hx, ?_, ?_⟩
    · intro a b hab
      simp at hab
      obtain ⟨-, rfl⟩ := hab
      exact jobLike_refl j
    · intro c j2b hab; simp at hab

theorem derivedModelName_ne_empty (j : Job) : derivedModelName j ≠ "" := by
  unfold derivedModelName
  intro h
  have h2 := congrArg String.length h
  rw [String.length_append, String.length_append] at h2
  have h3 : ("-finetuned-" : String).length = 11 := rfl
  rw [h3] at h2
  have h4 : ("" : String).length = 0 := rfl
  rw [h4] at h2
  omega

/-- C2: starting from a freshly created job (PENDING, empty
`fine_tuned_model`), every row persisted during an orchestrator run —
the RUNNING write, the executor's progress writes, the cancellation
write, a FAILED write, or the COMPLETED write, including the rows of the
path where the run continues past a mid-stream cancellation to model
registration and the step-5 write that overwrites the CANCELLED row —
satisfies "`fine_tuned_model` is non-empty iff `status` is COMPLETED":
the only write that sets the model name is the COMPLETED write, which
sets both fields together, and the derived model name is never empty. -/
theorem c2_theorem (env : RunEnv) (job0 : Job)
    (h0 : job0.status = .pending) (hf : job0.fine_tuned_model = "") :
    ∀ x ∈ job0 :: (runJob env job0).trace,
      (x.fine_tuned_model ≠ "" ↔ x.status = .completed) := by
  have base : ∀ y : Job, y.fine_tuned_model = "" → y.status ≠ .completed →
      (y.fine_tuned_model ≠ "" ↔ y.status = .completed) := by
    intro y h1 h2
    constructor
    · intro hh; exact absurd h1 hh
    · intro hh; exact absurd hh h2
  have hj1ftm : (markRunning job0 env.tStart).fine_tuned_model = "" := hf
  have hlike : ∀ y : Job, jobLike (markRunning job0 env.tStart) y →
      (y.fine_tuned_model ≠ "" ↔ y.status = .completed) := by
    intro y hy
    refine base y (hy.1.trans hj1ftm) ?_
    rcases hy.2 with h | h <;> rw [h]
    · intro hh; cases hh
    · intro hh; cases hh
  intro x hx
  rcases List.mem_cons.mp hx with rfl | hx
  · refine base x hf ?_
    rw [h0]; intro hh; cases hh
  · unfold runJob at hx
    rcases hv : validate_dataset_format env.file with e | ⟨n, errs⟩ <;> rw [hv] at hx <;>
      dsimp only at hx
    · rw [List.mem_singleton] at hx
      rw [hx]
      refine base _ hj1ftm ?_
      intro hh; cases hh
    · by_cases he : errs.isEmpty = true
      · rw [if_pos he] at hx
        rcases hexec : execTraining env.exec [] (markRunning job0 env.tStart) env.tCancel
          with ⟨reg, tr, res⟩
        rw [hexec] at hx
        dsimp only at hx
        have ht := execTraining_jobLike env.exec [] (markRunning job0 env.tStart) env.tCancel
        rw [hexec] at ht
        cases res with
        | error p =>
          rcases p with ⟨e2, jd⟩
          dsimp only at hx
          have hjd := ht.2.1 e2 jd rfl
          rw [List.mem_append, List.mem_cons, List.mem_singleton] at hx
          rcases hx with (rfl | hx) | hx
          · exact hlike _ (jobLike_refl _)
          · exact hlike x (ht.1 x hx)
          · rw [hx]
            refine base _ (hjd.1.trans hj1ftm) ?_
            intro hh; cases hh
        | ok p =>
          rcases p with ⟨c, j2⟩
          have hj2 := ht.2.2 c j2 rfl
          dsimp only at hx
          rcases hr : env.regError with _ | m <;> rw [hr] at hx <;> dsimp only at hx <;>
            rw [List.mem_append, List.mem_cons, List.mem_singleton] at hx
          · rcases hx with (rfl | hx) | hx
            · exact hlike _ (jobLike_refl _)
            · exact hlike x (ht.1 x hx)
            · rw [hx]
              constructor
              · intro _; rfl
              · intro _; exact derivedModelName_ne_empty job0
          · rcases hx with (rfl | hx) | hx
            · exact hlike _ (jobLike_refl _)
            · exact hlike x (ht.1 x hx)
            · rw [hx]
              refine base _ (hj2.1.trans hj1ftm) ?_
              intro hh; cases hh
      · rw [if_neg he] at hx
        rw [List.mem_cons, List.mem_singleton] at hx
        rcases hx with rfl | hx
        · exact hlike _ (jobLike_refl _)
        · rw [hx]
          refine base _ hj1ftm ?_
          intro hh; cases hh

/-- C2 witness: the invariant applied to the concrete success scenario,
instantiated at the RUNNING row the run persists first. -/
theorem c2_witness :
    (markRunning jobScenario envScenario.tStart).fine_tuned_model ≠ "" ↔
      (markRunning jobScenario envScenario.tStart).status = .completed :=
  c2_theorem envScenario jobScenario rfl rfl
    (markRunning jobScenario envScenario.tStart) (by decide)

theorem execLines_kind (cancelAt : Option Nat) (tc : ℚ) :
    ∀ (lines : List String) (k : Nat) (j : Job),
      ((execLines cancelAt tc lines k j).2).kind = streamFate cancelAt lines k := by
  intro lines
  induction lines with
  | nil => intro k j; rfl
  | cons raw rest ih =>
    intro k j
    simp only [execLines, streamFate]
    by_cases hblank : pyStrip raw = ""
    · rw [if_pos hblank, if_pos hblank]
      exact ih k j
    · rw [if_neg hblank, if_neg hblank]
      rcases hl : lossSearch (pyStrip raw) with _ | cap <;> dsimp only
      · -- no loss match: no raise possible on this line
        by_cases hp : pollCancelled cancelAt k = true
        · rw [if_pos hp, if_pos hp]
          rfl
        · rw [if_neg hp, if_neg hp]
          rcases hrec : execLines cancelAt tc rest (k + 1)
              (applyLineUpdates j (epochSearch (pyStrip raw)) none) with ⟨tr, ex⟩
          have hih := ih (k + 1) (applyLineUpdates j (epochSearch (pyStrip raw)) none)
          rw [hrec] at hih
          exact hih
      · rcases hf : pyFloatOfCapture cap with _ | q <;> dsimp only
        · rfl
        · by_cases hp : pollCancelled cancelAt k = true
          · rw [if_pos hp, if_pos hp]
            rfl
          · rw [if_neg hp, if_neg hp]
            rcases hrec : execLines cancelAt tc rest (k + 1)
                (applyLineUpdates j (epochSearch (pyStrip raw)) (some q)) with ⟨tr, ex⟩
            have hih := ih (k + 1) (applyLineUpdates j (epochSearch (pyStrip raw)) (some q))
            rw [hrec] at hih
            exact hih

/-- Whether a result of `_execute_training` is a raised `FineTuningError`
(a "training error", as opposed to a normal return or a non-
`FineTuningError` exception such as `ValueError`). -/
def resultIsTrainingError : Except (ExecErr × Job) (Bool × Job) → Bool
  | .error (e, _) => isTrainingFtError e
  | .ok _ => false

/-- A run in which the only output line matches the loss pattern with the
malformed capture "1.2.3" and the process exits 1. -/
def envLossRaise : ExecEnv :=
  { binaryPresent := true, outputLines := ["loss: 1.2.3"], exitCode := 1, cancelAt := none }

/-- C5 (counterexample): the binary is present, no cancellation is ever
observed, and the subprocess exits with code 1 — yet `_execute_training`
raises no training error: the line "loss: 1.2.3" matches
`loss[\s:=]+([\d.]+)` and `float("1.2.3")` raises `ValueError` before the
exit code is ever read, so the function raises that `ValueError` instead
of a `FineTuningError`, refuting "raises a training error exactly when
the training binary is absent or the subprocess exits with a non-zero
code". -/
theorem c5_counterexample :
    ¬ (resultIsTrainingError (execTraining envLossRaise [] jobScenario 0).2.2 = true ↔
        (envLossRaise.binaryPresent = false ∨
          (streamFate envLossRaise.cancelAt envLossRaise.outputLines 0 ≠ .cancelMid ∧
            ¬ envLossRaise.exitCode = 0))) := by decide

/-- C5 (amended): `_execute_training` raises a training error
(`FineTuningError`) exactly when the training binary is absent (a
distinct binary-not-found error) or the stream is exhausted — with no
mid-stream cancellation observation and no parse exception — and the exit
code is non-zero (the error carrying that code); a malformed loss capture
instead raises a `ValueError`, which is not a training error; and when
the status column reads CANCELLED mid-stream the function returns
normally (cancellation branch) without raising. -/
theorem c5_theorem (env : ExecEnv) (registry : List Nat) (j : Job) (tc : ℚ) :
    (resultIsTrainingError (execTraining env registry j tc).2.2 = true ↔
      (env.binaryPresent = false ∨
        (streamFate env.cancelAt env.outputLines 0 = .exhaustEnd ∧ ¬ env.exitCode = 0))) ∧
    (env.binaryPresent = false →
      (execTraining env registry j tc).2.2 = .error (.binaryNotFound, j)) ∧
    (env.binaryPresent = true → streamFate env.cancelAt env.outputLines 0 = .exhaustEnd →
      ¬ env.exitCode = 0 →
      ∃ jd, (execTraining env registry j tc).2.2 = .error (.exitNonZero env.exitCode, jd)) ∧
    (env.binaryPresent = true → streamFate env.cancelAt env.outputLines 0 = .cancelMid →
      ∃ jc, (execTraining env registry j tc).2.2 = .ok (true, jc)) := by
  by_cases hb : env.binaryPresent = true
  · unfold execTraining
    rw [if_neg (by simp [hb] : ¬((!env.binaryPresent) = true))]
    rcases hex : execLines env.cancelAt tc env.outputLines 0 j with ⟨tr, ex⟩
    have hk := execLines_kind env.cancelAt tc env.outputLines 0 j
    rw [hex] at hk
    cases ex with
    | exhausted j2 =>
      dsimp only
      dsimp only [LoopExit.kind] at hk
      by_cases hc : env.exitCode = 0
      · rw [if_neg (not_not_intro hc)]
        refine ⟨?_, ?_, ?_, ?_⟩
        · simp only [resultIsTrainingError]
          constructor
          · intro hh; cases hh
          · intro hh
            rcases hh with hh | ⟨-, hh⟩
            · rw [hb] at hh; cases hh
            · exact absurd hc hh
        · intro hh; rw [hb] at hh; cases hh
        · intro _ _ hh; exact absurd hc hh
        · intro _ hh
          rw [← hk] at hh
          cases hh
      · rw [if_pos hc]
        refine ⟨?_, ?_, ?_, ?_⟩
        · simp only [resultIsTrainingError, isTrainingFtError]
          constructor
          · intro _; exact .inr ⟨hk.symm, hc⟩
          · intro _; trivial
        · intro hh; rw [hb] at hh; cases hh
        · intro _ _ _; exact ⟨j2, rfl⟩
        · intro _ hh
          rw [← hk] at hh
          cases hh
    | cancelledMid jc =>
      dsimp only
      dsimp only [LoopExit.kind] at hk
      refine ⟨?_, ?_, ?_, ?_⟩
      · simp only [resultIsTrainingError]
        constructor
        · intro hh; cases hh
        · intro hh
          rcases hh with hh | ⟨hh, -⟩
          · rw [hb] at hh; cases hh
          · rw [← hk] at hh; cases hh
      · intro hh; rw [hb] at hh; cases hh
      · intro _ hh
        rw [← hk] at hh
        cases hh
      · intro _ _; exact ⟨jc, rfl⟩
    | raised e jd =>
      dsimp only
      dsimp only [LoopExit.kind] at hk
      refine ⟨?_, ?_, ?_, ?_⟩
      · simp only [resultIsTrainingError, isTrainingFtError]
        constructor
        · intro hh; cases hh
        · intro hh
          rcases hh with hh | ⟨hh, -⟩
          · rw [hb] at hh; cases hh
          · rw [← hk] at hh; cases hh
      · intro hh; rw [hb] at hh; cases hh
      · intro _ hh
        rw [← hk] at hh
        cases hh
      · intro _ hh
        rw [← hk] at hh
        cases hh
  · have hb2 : env.binaryPresent = false := by simpa using hb
    unfold execTraining
    rw [if_pos (by simp [hb2] : (!env.binaryPresent) = true)]
    refine ⟨?_, fun _ => rfl, ?_, ?_⟩
    · simp only [resultIsTrainingError, isTrainingFtError]
      constructor
      · intro _; exact .inl hb2
      · intro _; trivial
    · intro hh; rw [hb2] at hh; cases hh
    · intro hh; rw [hb2] at hh; cases hh

/-- A run whose stream is empty and whose process exits with code 3. -/
def envExit3 : ExecEnv :=
  { binaryPresent := true, outputLines := [], exitCode := 3, cancelAt := none }

/-- C5 witness: the non-zero-exit conjunct applied to a concrete run with
exit code 3, yielding the training error carrying that code. -/
theorem c5_witness :
    ∃ jd, (execTraining envExit3 [] jobScenario 0).2.2 =
      .error (.exitNonZero envExit3.exitCode, jd) :=
  (c5_theorem envExit3 [] jobScenario 0).2.2.1 rfl rfl (by decide)

/-- A stream consumer environment whose job id never resolves. -/
def envNoJob : StreamEnv := { jobAt := fun _ => none, nowAt := fun _ => 0 }

/-- A job observed in a terminal state with no progress and no start
time (so the derived percentage and duration are both 0). -/
def jobDone : Job :=
  { jobScenario with status := .completed, fine_tuned_model := "m-finetuned-7" }

/-- A stream consumer environment that always reads `jobDone`. -/
def envDone : StreamEnv := { jobAt := fun _ => some jobDone, nowAt := fun _ => 0 }

/-- C8: (1) for a nonexistent job id the stream yields exactly one
element — the not-found element (the `{"error": "Job not found",
"done": true}` dict) — and stops; (2) every snapshot carries
`progress = current_step / total_steps * 100` (0 when `total_steps` is 0)
and `duration = (completed_at or now) - started_at` (0 when never
started); (3) a snapshot whose status is terminal is the final element of
the yielded sequence. -/
theorem c8_theorem :
    (∀ (env : StreamEnv) (fuel : Nat), env.jobAt 0 = none →
      progressStream env 0 (fuel + 1) = [.notFound]) ∧
    (∀ (j : Job) (now : ℚ),
      (snapshotOf j now).progress =
        (if j.total_steps = 0 then 0
         else ((j.current_step : ℚ) / (j.total_steps : ℚ)) * 100) ∧
      (snapshotOf j now).duration =
        (match j.started_at with
         | none => 0
         | some s => j.completed_at.getD now - s)) ∧
    (∀ (env : StreamEnv) (n fuel i : Nat) (s : Snapshot),
      (progressStream env n fuel).get? i = some (.snap s) → isTerminal s.status = true →
      i + 1 = (progressStream env n fuel).length) := by
  refine ⟨?_, ?_, ?_⟩
  · intro env fuel h
    simp [progressStream, h]
  · intro j now
    exact ⟨rfl, rfl⟩
  · intro env n fuel
    induction fuel generalizing n with
    | zero => intro i s hg _; simp [progressStream] at hg
    | succ fuel ih =>
      intro i s hg hterm
      rcases hj : env.jobAt n with _ | j <;>
        simp only [progressStream, hj] at hg ⊢
      · rcases i with _ | i2
        · simp at hg
        · simp at hg
      · by_cases ht : isTerminal j.status = true
        · rw [if_pos ht] at hg ⊢
          rcases i with _ | i2
          · rfl
          · simp at hg
        · rw [if_neg ht] at hg ⊢
          rcases i with _ | i2
          · simp at hg
            have : s.status = j.status := by rw [← hg]; rfl
            rw [this] at hterm
            exact absurd hterm ht
          · simp only [List.get?] at hg
            have := ih (n + 1) i2 s hg hterm
            simp [List.length_cons]
            omega

/-- C8 witness: the not-found stream yields exactly one element; the
snapshot formulas instantiated at a concrete job; the terminal snapshot
of a concrete one-poll stream is its final element. -/
theorem c8_witness :
    progressStream envNoJob 0 4 = [.notFound] ∧
    ((snapshotOf jobScenario 0).progress =
      (if jobScenario.total_steps = 0 then 0
       else ((jobScenario.current_step : ℚ) / (jobScenario.total_steps : ℚ)) * 100) ∧
     (snapshotOf jobScenario 0).duration =
      (match jobScenario.started_at with
       | none => 0
       | some s => jobScenario.completed_at.getD 0 - s)) ∧
    0 + 1 = (progressStream envDone 0 1).length :=
  ⟨c8_theorem.1 envNoJob 3 rfl, c8_theorem.2.1 jobScenario 0,
   c8_theorem.2.2 envDone 0 1 0 (snapshotOf jobDone 0) rfl rfl⟩
